import Mathlib

/-
Verification of the h2h front-matter conversion pipeline
(`internal/convert.go` and its sibling variants).

The development shallowly embeds the pipeline:
  * documents are `List Char`; the front-matter delimiter is the fixed
    three-dash marker;
  * `strings.SplitN(s, "---", 3)` is embedded as `splitN3`;
  * the two external codecs (YAML via gopkg.in/yaml.v3 and TOML via
    BurntSushi/toml) live behind the `FormatHandler` interface exactly as in
    the source; they are taken as parameters, since their implementations
    are not part of this repository;
  * Go maps `map[string]interface{}` are embedded as association lists with
    assignment-style insertion (`mapInsert`, last write wins);
  * the filesystem touched by `ProcessFile` / `ConvertPosts` is an explicit
    `FS` state threaded through the functions;
  * the worker pool of `ConvertPosts` is modelled by running the per-file
    actions in an arbitrary order (any permutation of the enumerated file
    list); the bound `MaxConcurrency` only restricts which interleavings
    can happen, and every interleaving's per-file effects on distinct
    destination paths is some permutation of the per-file actions.
-/

set_option autoImplicit false

deriving instance DecidableEq for Except

namespace H2h

/-- A filesystem path, as its list of components (`filepath.Join` is `++`). -/
abbrev Path := List String

/-- In-memory filesystem state: the directories that exist and the regular
files with their byte contents.  `os.MkdirAll` only ever adds directories,
so intermediate parents are elided; only membership of the created
directory itself is observed by the claims. -/
structure FS where
  dirs : List Path
  files : List (Path × List Char)
deriving DecidableEq, Repr

/-- Reading a file: `os.Open` + `io.ReadAll`, `none` when the file does not
exist. -/
def lookupFS : List (Path × List Char) → Path → Option (List Char)
  | [], _ => none
  | (q, c) :: t, p => if q = p then some c else lookupFS t p

/-- Writing a file (`os.Create` truncation and subsequent writes):
overwrite the entry when present, append it otherwise. -/
def setFS : List (Path × List Char) → Path → List Char → List (Path × List Char)
  | [], p, c => [(p, c)]
  | (q, d) :: t, p, c => if q = p then (q, c) :: t else (q, d) :: setFS t p c

/-- `os.MkdirAll`: record the directory if it is absent. -/
def mkdirAllFS (fs : FS) (d : Path) : FS :=
  if d ∈ fs.dirs then fs else ⟨fs.dirs ++ [d], fs.files⟩

/-- `FrontMatterDelimiter = "---"` from `convert.go`. -/
def frontMatterDelimiter : List Char := ['-', '-', '-']

/-- One step of Go's `strings.SplitN(s, "---", n)`: locate the leftmost
non-overlapping occurrence of the delimiter, returning the text before it
and the text after it. -/
def splitOnceD : List Char → Option (List Char × List Char)
  | [] => none
  | c :: t =>
    if frontMatterDelimiter.isPrefixOf (c :: t) then some ([], t.drop 2)
    else
      match splitOnceD t with
      | none => none
      | some (p, r) => some (c :: p, r)

/-- Go's `strings.SplitN(s, "---", 3)`: split around the first two
occurrences of the delimiter; any later occurrence stays inside the third
part. -/
def splitN3 (s : List Char) : List (List Char) :=
  match splitOnceD s with
  | none => [s]
  | some (p0, r) =>
    match splitOnceD r with
    | none => [p0, r]
    | some (p1, r2) => [p0, p1, r2]

/-- Number of non-overlapping occurrences of the delimiter in a text,
counted left to right exactly as `strings.SplitN` consumes them. -/
def countDelim : List Char → Nat
  | [] => 0
  | c :: t =>
    if frontMatterDelimiter.isPrefixOf (c :: t) then 1 + countDelim (t.drop 2)
    else countDelim t
termination_by s => s.length
decreasing_by
  all_goals simp [List.length_drop]
  omega

/-- The `FormatHandler` interface of `convert.go`: `Unmarshal` decodes a
metadata block into a key/value mapping, `Marshal` encodes a mapping back
to bytes.  `none` is the Go non-nil error.  The value type `V` stands for
Go's `interface{}`; values are never inspected by the converter. -/
structure FormatHandler (V : Type) where
  unmarshal : List Char → Option (List (String × V))
  marshal : List (String × V) → Option (List Char)

/-- The `formatHandlers` map of `convert.go`, keyed by the `Format` string
constants `"yaml"` and `"toml"`.  The two concrete handlers are parameters
because their codecs are external libraries. -/
def formatHandlers {V : Type} (yamlHandler tomlHandler : FormatHandler V) :
    String → Option (FormatHandler V) :=
  fun f =>
    if f = "yaml" then some yamlHandler
    else if f = "toml" then some tomlHandler
    else none

/-- `keyMappings[DirectionHexoToHugo]` from `convert.go`. -/
def hexoToHugoKeyMap : List (String × String) :=
  [("permalink", "slug"), ("updated", "lastmod"), ("sticky", "weight")]

/-- `keyMappings[DirectionHugoToHexo]` from `convert.go`. -/
def hugoToHexoKeyMap : List (String × String) :=
  [("slug", "permalink"), ("lastmod", "updated"), ("weight", "sticky")]

/-- The `keyMappings` map of `convert.go`, keyed by the `Direction` string
constants.  A Go map lookup at any other key yields the nil map. -/
def keyMappings : String → Option (List (String × String)) :=
  fun d =>
    if d = "hexo2hugo" then some hexoToHugoKeyMap
    else if d = "hugo2hexo" then some hugoToHexoKeyMap
    else none

/-- The `Config` struct of `convert.go`. -/
structure Config where
  sourceFormat : String
  targetFormat : String
  fileExtension : String
  maxConcurrency : Nat
  conversionDirection : String
deriving DecidableEq, Repr

/-- `NewDefaultConfig` from `convert.go`. -/
def newDefaultConfig : Config := ⟨"yaml", "yaml", ".md", 4, "hexo2hugo"⟩

/-- Lookup in a key-mapping table (`fmc.keyMap[key]`). -/
def lookupKM : List (String × String) → String → Option String
  | [], _ => none
  | (a, b) :: t, k => if a = k then some b else lookupKM t k

/-- The per-key renaming of `ConvertFrontMatter`: the mapped name when the
key is in the table, the original name otherwise. -/
def remapKey (km : List (String × String)) (k : String) : String :=
  match lookupKM km k with
  | some t => t
  | none => k

/-- Go map assignment `m[k] = v`: overwrite the value when the key is
present, add the pair otherwise. -/
def mapInsert {V : Type} : List (String × V) → String → V → List (String × V)
  | [], k, v => [(k, v)]
  | (a, b) :: t, k, v => if a = k then (a, v) :: t else (a, b) :: mapInsert t k v

/-- The key-remapping loop of `ConvertFrontMatter`: build `convertedMap` by
inserting every entry of the decoded map under its remapped key. -/
def buildConverted {V : Type} (km : List (String × String))
    (m : List (String × V)) : List (String × V) :=
  m.foldl (fun acc kv => mapInsert acc (remapKey km kv.1) kv.2) []

/-- Per-file error causes of the pipeline (`ConversionError.Err`); the
`fmt.Errorf` wrapping strings are elided, the cause is kept. -/
inductive PErr where
  | invalidMarkdown
  | unmarshalErr
  | marshalErr
  | openErr
  | relErr
deriving DecidableEq, Repr

/-- The `FrontMatterConverter` struct.  As in the `part_000` variant the
two handlers resolved from `formatHandlers` are stored directly; in
`convert.go` the formats are stored and the same fixed map is consulted at
use, which is equivalent. -/
structure FrontMatterConverter (V : Type) where
  keyMap : List (String × String)
  sourceHandler : FormatHandler V
  targetHandler : FormatHandler V

/-- `ConvertFrontMatter`: decode under the source format, remap the keys,
encode under the target format, and wrap the encoded bytes as
`fmt.Sprintf("%s\n%s%s", delim, buf.String(), delim)`. -/
def convertFrontMatter {V : Type} (fmc : FrontMatterConverter V)
    (frontMatter : List Char) : Except PErr (List Char) :=
  match fmc.sourceHandler.unmarshal frontMatter with
  | none => Except.error PErr.unmarshalErr
  | some m =>
    match fmc.targetHandler.marshal (buildConverted fmc.keyMap m) with
    | none => Except.error PErr.marshalErr
    | some enc =>
      Except.ok (frontMatterDelimiter ++ '\n' :: (enc ++ frontMatterDelimiter))

/-- `ConvertMarkdown`: split the document around the first two delimiter
occurrences (`strings.SplitN(content, delim, 3)`); fewer than three parts
is `ErrInvalidMarkdown`; otherwise convert `parts[1]` and emit
`fmt.Fprintf(w, "%s\n\n%s", convertedFrontMatter, parts[2])`. -/
def convertMarkdown {V : Type} (fmc : FrontMatterConverter V)
    (content : List Char) : Except PErr (List Char) :=
  match splitN3 content with
  | _ :: p1 :: p2 :: _ =>
    match convertFrontMatter fmc p1 with
    | Except.error e => Except.error e
    | Except.ok cfm => Except.ok (cfm ++ '\n' :: '\n' :: p2)
  | _ => Except.error PErr.invalidMarkdown

/-- `strings.HasSuffix(path, fp.fileExt)`, on the file's name component
(the default extension `".md"` contains no separator, so the two coincide);
the suffix test is on the underlying character lists. -/
def matchesExt (p : Path) (ext : String) : Bool :=
  match p.getLast? with
  | some name => ext.data.isSuffixOf name.data
  | none => false

/-- `filepath.Rel(srcDir, path)` for walked files, which always live under
`srcDir`. -/
def relOf (srcDir p : Path) : Option Path :=
  if srcDir.isPrefixOf p then some (p.drop srcDir.length) else none

/-- The mirrored destination path `filepath.Join(dstDir, relPath)`. -/
def dstPathOf (srcDir dstDir p : Path) : Path :=
  dstDir ++ p.drop srcDir.length

/-- `ProcessFile` from `convert.go` (lines 236-285): skip non-matching
files; make the destination parent directory; open the source; create the
destination; convert.  The deferred cleanup in the source is
`if err != nil { os.Remove(dstPath) }` over the function-scoped `err`,
which is nil after `os.Create` succeeds; the conversion failure at line
280 binds a fresh `err` inside the `if` statement, so the deferred remove
never runs and a failed conversion leaves the truncated destination file
in place.  The embedding reproduces that behaviour. -/
def processFile {V : Type} (fmc : FrontMatterConverter V)
    (srcDir dstDir : Path) (ext : String) (fs : FS) (p : Path) :
    Option PErr × FS :=
  if matchesExt p ext = false then (none, fs)
  else
    match relOf srcDir p with
    | none => (some PErr.relErr, fs)
    | some rel =>
      let dstPath := dstDir ++ rel
      let fs1 := mkdirAllFS fs dstPath.dropLast
      match lookupFS fs1.files p with
      | none => (some PErr.openErr, fs1)
      | some content =>
        let fs2 : FS := ⟨fs1.dirs, setFS fs1.files dstPath []⟩
        match convertMarkdown fmc content with
        | Except.error e =>
          -- the function-scoped err is nil here, so os.Remove is skipped
          (some e, fs2)
        | Except.ok out => (none, ⟨fs2.dirs, setFS fs2.files dstPath out⟩)

/-- The engine's shared mutable state: the mutex-guarded failure list, the
success counter (the `fileCount` of the `part_000` variant), and the
filesystem. -/
structure EngineState where
  errs : List (Path × PErr)
  count : Nat
  fs : FS

/-- One dispatched worker body from `ConvertPosts`: run `ProcessFile`,
record `ConversionError{SourceFile: path, Err: err}` on failure, and bump
the success counter otherwise. -/
def stepFile {V : Type} (fmc : FrontMatterConverter V)
    (srcDir dstDir : Path) (ext : String) (st : EngineState) (p : Path) :
    EngineState :=
  match processFile fmc srcDir dstDir ext st.fs p with
  | (some e, fs') => ⟨st.errs ++ [(p, e)], st.count, fs'⟩
  | (none, fs') => ⟨st.errs, st.count + 1, fs'⟩

/-- Run the per-file workers in a given completion order. -/
def runFiles {V : Type} (fmc : FrontMatterConverter V)
    (srcDir dstDir : Path) (ext : String) :
    List Path → EngineState → EngineState
  | [], st => st
  | p :: rest, st =>
    runFiles fmc srcDir dstDir ext rest (stepFile fmc srcDir dstDir ext st p)

/-- The directory walk: every regular file under `srcDir` whose name ends
in the configured extension, in enumeration order. -/
def walkFiles (files : List (Path × List Char)) (srcDir : Path)
    (ext : String) : List Path :=
  (files.map Prod.fst).filter fun p =>
    srcDir.isPrefixOf p && matchesExt p ext

/-- `NewFrontMatterConverter`: reject a source or target format that is not
in `formatHandlers` with `ErrUnsupportedFormat`; the key map is
`keyMappings[cfg.ConversionDirection]`, the nil map when the direction is
not a key of the table. -/
def newFrontMatterConverter {V : Type}
    (yamlHandler tomlHandler : FormatHandler V) (cfg : Config) :
    Except String (FrontMatterConverter V) :=
  match formatHandlers yamlHandler tomlHandler cfg.sourceFormat with
  | none => Except.error ("unsupported format: " ++ cfg.sourceFormat)
  | some sh =>
    match formatHandlers yamlHandler tomlHandler cfg.targetFormat with
    | none => Except.error ("unsupported format: " ++ cfg.targetFormat)
    | some th =>
      Except.ok ⟨(keyMappings cfg.conversionDirection).getD [], sh, th⟩

/-- `NewMarkdownConverter` only wraps the front-matter converter. -/
def newMarkdownConverter {V : Type}
    (yamlHandler tomlHandler : FormatHandler V) (cfg : Config) :
    Except String (FrontMatterConverter V) :=
  newFrontMatterConverter yamlHandler tomlHandler cfg

/-- `ConvertPosts` from `convert.go` (lines 288-354): default the nil
config, create the destination directory, build the converter, walk the
source tree, dispatch every matching file, and aggregate.  The success
count is the `fileCount` counter of the `part_000` variant of the engine.
Per-file failures are also printed to stderr in the source; only the
returned value is modelled. -/
def convertPosts {V : Type} (yamlHandler tomlHandler : FormatHandler V)
    (srcDir dstDir : Path) (cfgOpt : Option Config) (fs : FS) :
    Except String Nat × FS :=
  let cfg := match cfgOpt with
    | none => newDefaultConfig
    | some c => c
  let fs1 := mkdirAllFS fs dstDir
  match newMarkdownConverter yamlHandler tomlHandler cfg with
  | Except.error e => (Except.error ("creating markdown converter: " ++ e), fs1)
  | Except.ok mc =>
    let files := walkFiles fs1.files srcDir cfg.fileExtension
    let st := runFiles mc srcDir dstDir cfg.fileExtension files ⟨[], 0, fs1⟩
    if st.errs.length > 0 then
      (Except.error
        ("encountered " ++ toString st.errs.length ++ " errors during conversion"),
       st.fs)
    else
      (Except.ok st.count, st.fs)

/-- The pure per-file outcome: the error produced (if any) and the bytes
the destination file holds afterwards (`none` when no destination file was
created), as a function of the source file's contents. -/
def fileWrite {V : Type} (fmc : FrontMatterConverter V)
    (content? : Option (List Char)) : Option PErr × Option (List Char) :=
  match content? with
  | none => (some PErr.openErr, none)
  | some content =>
    match convertMarkdown fmc content with
    | Except.error e => (some e, some [])
    | Except.ok out => (none, some out)

/-- A tiny concrete metadata mapping (hexo side), used to instantiate the
codec-parametric theorems on executable inputs. -/
def demoSrcMap : List (String × Nat) := [("permalink", 1), ("title", 2)]

/-- The same mapping after hexo-to-hugo key renaming. -/
def demoTgtMap : List (String × Nat) := [("slug", 1), ("title", 2)]

/-- A concrete two-word codec: decodes the byte `F` to the hexo mapping and
the byte `G` to the hugo mapping, and encodes the hugo mapping to `G`.  It
satisfies the decode-after-encode round-trip that the real YAML and TOML
codecs provide. -/
def demoHandler : FormatHandler Nat :=
  ⟨fun s =>
      if s = ['F'] then some demoSrcMap
      else if s = ['G'] then some demoTgtMap
      else none,
    fun m => if m = demoTgtMap then some ['G'] else none⟩

/-- The converter built from the demo codec for the hexo-to-hugo direction. -/
def demoFmc : FrontMatterConverter Nat :=
  ⟨hexoToHugoKeyMap, demoHandler, demoHandler⟩

/-! ### Helper lemmas: filesystem association list -/

theorem lookupFS_set (l : List (Path × List Char)) (p : Path) (c : List Char)
    (q : Path) :
    lookupFS (setFS l p c) q = if p = q then some c else lookupFS l q := by
  induction l with
  | nil => simp [setFS, lookupFS]
  | cons hd t ih =>
    obtain ⟨a, d⟩ := hd
    by_cases hap : a = p
    · subst hap
      by_cases hpq : a = q <;> simp [setFS, lookupFS, hpq]
    · by_cases haq : a = q
      · subst haq
        have hpq : ¬ p = a := fun h => hap h.symm
        simp [setFS, lookupFS, hap, hpq]
      · by_cases hpq : p = q
        · subst hpq
          simp [setFS, lookupFS, hap, haq, ih]
        · simp [setFS, lookupFS, hap, haq, hpq, ih]

/-! ### Helper lemmas: the delimiter splitter -/

theorem delim_isPrefixOf_cons (r : List Char) :
    frontMatterDelimiter.isPrefixOf ('-' :: '-' :: '-' :: r) = true := by
  simp [frontMatterDelimiter, List.isPrefixOf]

theorem exists_of_delim_isPrefixOf {s : List Char}
    (h : frontMatterDelimiter.isPrefixOf s = true) :
    ∃ r, s = '-' :: '-' :: '-' :: r := by
  rcases s with _ | ⟨a, _ | ⟨b, _ | ⟨c, r⟩⟩⟩ <;>
    simp [frontMatterDelimiter, List.isPrefixOf] at h
  obtain ⟨h1, h2, h3⟩ := h
  subst h1
  subst h2
  subst h3
  exact ⟨r, rfl⟩

theorem delim_cross (c : Char) (t r : List Char)
    (h : frontMatterDelimiter.isPrefixOf
      (c :: (t ++ '-' :: '-' :: '-' :: r)) = true) :
    frontMatterDelimiter.isPrefixOf (c :: (t ++ ['-', '-'])) = true := by
  obtain ⟨r', heq⟩ := exists_of_delim_isPrefixOf h
  injection heq with hc heq
  subst hc
  rcases t with _ | ⟨a, t'⟩
  · decide
  · simp only [List.cons_append] at heq
    injection heq with ha heq
    subst ha
    rcases t' with _ | ⟨b, t''⟩
    · decide
    · simp only [List.cons_append] at heq
      injection heq with hb heq
      subst hb
      simpa [List.cons_append] using delim_isPrefixOf_cons (t'' ++ ['-', '-'])

theorem splitOnceD_boundary (p0 r : List Char)
    (h : splitOnceD (p0 ++ ['-', '-']) = none) :
    splitOnceD (p0 ++ '-' :: '-' :: '-' :: r) = some (p0, r) := by
  induction p0 with
  | nil =>
    simp only [List.nil_append, splitOnceD]
    rw [if_pos (delim_isPrefixOf_cons r)]
    rfl
  | cons c t ih =>
    simp only [List.cons_append, splitOnceD, List.append_eq] at h ⊢
    cases hcond : frontMatterDelimiter.isPrefixOf (c :: (t ++ ['-', '-'])) with
    | true =>
      rw [if_pos hcond] at h
      exact absurd h (by simp)
    | false =>
      rw [if_neg (by simp [hcond])] at h
      have hrest : splitOnceD (t ++ ['-', '-']) = none := by
        cases hsp : splitOnceD (t ++ ['-', '-']) with
        | none => rfl
        | some pr =>
          obtain ⟨p, rr⟩ := pr
          rw [hsp] at h
          exact absurd h (by simp)
      have hnot : frontMatterDelimiter.isPrefixOf
          (c :: (t ++ '-' :: '-' :: '-' :: r)) = false := by
        cases hc2 : frontMatterDelimiter.isPrefixOf
            (c :: (t ++ '-' :: '-' :: '-' :: r)) with
        | true => exact absurd (delim_cross c t r hc2) (by simp [hcond])
        | false => rfl
      rw [if_neg (by simp [hnot]), ih hrest]

theorem splitN3_parts (p0 fm body : List Char)
    (h0 : splitOnceD (p0 ++ ['-', '-']) = none)
    (h1 : splitOnceD (fm ++ ['-', '-']) = none) :
    splitN3 (p0 ++ '-' :: '-' :: '-' :: (fm ++ '-' :: '-' :: '-' :: body)) =
      [p0, fm, body] := by
  simp [splitN3, splitOnceD_boundary p0 _ h0, splitOnceD_boundary fm _ h1]

theorem countDelim_eq_splitOnceD (s : List Char) :
    countDelim s =
      match splitOnceD s with
      | none => 0
      | some pr => 1 + countDelim pr.2 := by
  induction s with
  | nil => simp [countDelim, splitOnceD]
  | cons c t ih =>
    rw [countDelim.eq_def]
    simp only [splitOnceD]
    cases hpre : frontMatterDelimiter.isPrefixOf (c :: t) with
    | true => simp
    | false =>
      simp only [Bool.false_eq_true, if_false]
      cases hsp : splitOnceD t with
      | none => simp [hsp, ih]
      | some pr =>
        obtain ⟨p, r⟩ := pr
        simp [hsp, ih]

theorem countDelim_nil : countDelim ([] : List Char) = 0 := by
  rw [countDelim_eq_splitOnceD]
  rfl

theorem countDelim_single_a : countDelim ['a'] = 0 := by
  rw [countDelim_eq_splitOnceD]
  rfl

theorem countDelim_one_open_delim : countDelim ['-', '-', '-', 'a'] = 1 := by
  rw [countDelim_eq_splitOnceD]
  show 1 + countDelim ['a'] = 1
  rw [countDelim_single_a]

/-- C3: for every input whose text contains fewer than two occurrences of
the delimiter `---` — in particular the empty input and an input with
exactly one occurrence — `ConvertMarkdown` fails with the invalid-document
error `ErrInvalidMarkdown` and produces no converted output. -/
theorem c3_too_few_delimiters_invalid {V : Type}
    (fmc : FrontMatterConverter V) (content : List Char)
    (h : countDelim content < 2) :
    convertMarkdown fmc content = Except.error PErr.invalidMarkdown := by
  cases h0 : splitOnceD content with
  | none => simp [convertMarkdown, splitN3, h0]
  | some pr =>
    obtain ⟨p0, r⟩ := pr
    have hc : countDelim content = 1 + countDelim r := by
      rw [countDelim_eq_splitOnceD, h0]
    have h1 : splitOnceD r = none := by
      cases h1 : splitOnceD r with
      | none => rfl
      | some pr2 =>
        obtain ⟨pp, rr⟩ := pr2
        have hcr := countDelim_eq_splitOnceD r
        rw [h1] at hcr
        simp at hcr
        rw [hcr] at hc
        rw [hc] at h
        have hnot2 : ¬ (1 + (1 + countDelim rr) < 2) := by omega
        exact absurd h hnot2
    simp [convertMarkdown, splitN3, h0, h1]

/-! ### Helper lemmas: the key-remapping loop -/

theorem mapInsert_notMem {V : Type} (m : List (String × V)) (k : String)
    (v : V) (h : k ∉ m.map Prod.fst) : mapInsert m k v = m ++ [(k, v)] := by
  induction m with
  | nil => simp [mapInsert]
  | cons hd t ih =>
    obtain ⟨a, b⟩ := hd
    simp only [List.map_cons, List.mem_cons] at h
    push_neg at h
    obtain ⟨hka, hkt⟩ := h
    have hak : ¬ a = k := fun hh => hka hh.symm
    simp [mapInsert, hak, ih hkt]

theorem buildConverted_aux {V : Type} (km : List (String × String)) :
    ∀ (m acc : List (String × V)),
      (acc.map Prod.fst ++ m.map fun kv => remapKey km kv.1).Nodup →
      m.foldl (fun acc kv => mapInsert acc (remapKey km kv.1) kv.2) acc =
        acc ++ m.map fun kv => (remapKey km kv.1, kv.2) := by
  intro m
  induction m with
  | nil =>
    intro acc _
    simp
  | cons kv t ih =>
    intro acc h
    obtain ⟨k, v⟩ := kv
    simp only [List.map_cons] at h
    have hnotin : remapKey km k ∉ acc.map Prod.fst := by
      rw [List.nodup_append] at h
      intro hmem
      exact h.2.2 hmem (by simp)
    simp only [List.foldl_cons]
    rw [mapInsert_notMem acc _ v hnotin]
    rw [ih (acc ++ [(remapKey km k, v)]) (by
      simp only [List.map_append, List.map_cons, List.map_nil]
      simpa [List.append_assoc] using h)]
    simp [List.append_assoc]

theorem buildConverted_eq_map {V : Type} (km : List (String × String))
    (m : List (String × V))
    (hnd : (m.map fun kv => remapKey km kv.1).Nodup) :
    buildConverted km m = m.map fun kv => (remapKey km kv.1, kv.2) := by
  have := buildConverted_aux km m [] (by simpa using hnd)
  simpa [buildConverted] using this

/-! ### Helper lemmas: paths, the walk, and `ProcessFile` -/

theorem setFS_setFS (l : List (Path × List Char)) (p : Path)
    (c d : List Char) : setFS (setFS l p c) p d = setFS l p d := by
  induction l with
  | nil => simp [setFS]
  | cons hd t ih =>
    obtain ⟨a, b⟩ := hd
    by_cases hap : a = p <;> simp [setFS, hap, ih]

theorem mkdirAllFS_files (fs : FS) (d : Path) :
    (mkdirAllFS fs d).files = fs.files := by
  unfold mkdirAllFS
  split <;> rfl

theorem walkFiles_mem {files : List (Path × List Char)} {srcDir : Path}
    {ext : String} {p : Path} (hp : p ∈ walkFiles files srcDir ext) :
    srcDir.isPrefixOf p = true ∧ matchesExt p ext = true := by
  have := List.of_mem_filter hp
  exact ⟨(Bool.and_eq_true _ _ |>.mp this).1, (Bool.and_eq_true _ _ |>.mp this).2⟩

theorem walkFiles_nodup {files : List (Path × List Char)} {srcDir : Path}
    {ext : String} (h : (files.map Prod.fst).Nodup) :
    (walkFiles files srcDir ext).Nodup :=
  h.filter _

theorem append_drop_of_isPrefixOf {u p : Path} (h : u.isPrefixOf p = true) :
    u ++ p.drop u.length = p := by
  have hpre := List.isPrefixOf_iff_prefix.mp h
  have htake := List.prefix_iff_eq_take.mp hpre
  conv_rhs => rw [← List.take_append_drop u.length p]
  rw [← htake]

theorem dstPathOf_inj {srcDir dstDir p₁ p₂ : Path}
    (h1 : srcDir.isPrefixOf p₁ = true) (h2 : srcDir.isPrefixOf p₂ = true)
    (heq : dstPathOf srcDir dstDir p₁ = dstPathOf srcDir dstDir p₂) :
    p₁ = p₂ := by
  unfold dstPathOf at heq
  have hd := congrArg (List.drop dstDir.length) heq
  rw [List.drop_left, List.drop_left] at hd
  rw [← append_drop_of_isPrefixOf h1, ← append_drop_of_isPrefixOf h2, hd]

theorem dstDir_isPrefixOf_dstPathOf (srcDir dstDir p : Path) :
    dstDir.isPrefixOf (dstPathOf srcDir dstDir p) = true := by
  rw [List.isPrefixOf_iff_prefix]
  exact List.prefix_append dstDir _

theorem processFile_fst {V : Type} (fmc : FrontMatterConverter V)
    (srcDir dstDir : Path) (ext : String) (fs : FS) (p : Path)
    (hm : matchesExt p ext = true) (hp : srcDir.isPrefixOf p = true) :
    (processFile fmc srcDir dstDir ext fs p).1 =
      (fileWrite fmc (lookupFS fs.files p)).1 := by
  unfold processFile relOf
  rw [hm]
  rw [if_neg (by simp)]
  rw [if_pos hp]
  dsimp only
  rw [mkdirAllFS_files]
  cases hlook : lookupFS fs.files p with
  | none => rfl
  | some content =>
    cases hcm : convertMarkdown fmc content with
    | error e => simp [fileWrite, hcm]
    | ok out => simp [fileWrite, hcm]

theorem processFile_lookup {V : Type} (fmc : FrontMatterConverter V)
    (srcDir dstDir : Path) (ext : String) (fs : FS) (p : Path)
    (hm : matchesExt p ext = true) (hp : srcDir.isPrefixOf p = true)
    (q : Path) :
    lookupFS (processFile fmc srcDir dstDir ext fs p).2.files q =
      match (fileWrite fmc (lookupFS fs.files p)).2 with
      | none => lookupFS fs.files q
      | some c =>
        if dstPathOf srcDir dstDir p = q then some c
        else lookupFS fs.files q := by
  unfold processFile relOf
  rw [hm]
  rw [if_neg (by simp)]
  rw [if_pos hp]
  dsimp only
  rw [mkdirAllFS_files]
  cases hlook : lookupFS fs.files p with
  | none =>
    simp [fileWrite, mkdirAllFS_files]
  | some content =>
    cases hcm : convertMarkdown fmc content with
    | error e =>
      simp only [fileWrite, hcm]
      rw [lookupFS_set]
      rfl
    | ok out =>
      simp only [fileWrite, hcm, setFS_setFS]
      rw [lookupFS_set]
      rfl

/-! ### Helper lemmas: one engine step -/

theorem stepFile_fs {V : Type} (fmc : FrontMatterConverter V)
    (srcDir dstDir : Path) (ext : String) (st : EngineState) (p : Path) :
    (stepFile fmc srcDir dstDir ext st p).fs =
      (processFile fmc srcDir dstDir ext st.fs p).2 := by
  rcases h : processFile fmc srcDir dstDir ext st.fs p with ⟨e, fs'⟩
  cases e <;> simp [stepFile, h]

theorem stepFile_count {V : Type} (fmc : FrontMatterConverter V)
    (srcDir dstDir : Path) (ext : String) (st : EngineState) (p : Path) :
    (stepFile fmc srcDir dstDir ext st p).count =
      st.count +
        (if (processFile fmc srcDir dstDir ext st.fs p).1.isNone then 1
         else 0) := by
  rcases h : processFile fmc srcDir dstDir ext st.fs p with ⟨e, fs'⟩
  cases e <;> simp [stepFile, h]

theorem stepFile_errsLength {V : Type} (fmc : FrontMatterConverter V)
    (srcDir dstDir : Path) (ext : String) (st : EngineState) (p : Path) :
    (stepFile fmc srcDir dstDir ext st p).errs.length =
      st.errs.length +
        (if (processFile fmc srcDir dstDir ext st.fs p).1.isSome then 1
         else 0) := by
  rcases h : processFile fmc srcDir dstDir ext st.fs p with ⟨e, fs'⟩
  cases e <;> simp [stepFile, h]

theorem stepFile_lookup_other {V : Type} (fmc : FrontMatterConverter V)
    (srcDir dstDir : Path) (ext : String) (st : EngineState) (p : Path)
    (hm : matchesExt p ext = true) (hp : srcDir.isPrefixOf p = true)
    (q : Path) (hq : dstPathOf srcDir dstDir p ≠ q) :
    lookupFS (stepFile fmc srcDir dstDir ext st p).fs.files q =
      lookupFS st.fs.files q := by
  rw [stepFile_fs, processFile_lookup fmc srcDir dstDir ext st.fs p hm hp q]
  cases hfw : (fileWrite fmc (lookupFS st.fs.files p)).2 with
  | none => rfl
  | some c =>
    dsimp only
    rw [if_neg hq]

theorem stepFile_lookup_src {V : Type} (fmc : FrontMatterConverter V)
    (srcDir dstDir : Path) (ext : String) (st : EngineState) (p : Path)
    (hdisj : ∀ q, srcDir.isPrefixOf q = true → dstDir.isPrefixOf q = false)
    (hm : matchesExt p ext = true) (hp : srcDir.isPrefixOf p = true)
    (q : Path) (hq : srcDir.isPrefixOf q = true) :
    lookupFS (stepFile fmc srcDir dstDir ext st p).fs.files q =
      lookupFS st.fs.files q := by
  refine stepFile_lookup_other fmc srcDir dstDir ext st p hm hp q ?_
  intro hdq
  have h1 : dstDir.isPrefixOf q = true := by
    rw [← hdq]
    exact dstDir_isPrefixOf_dstPathOf srcDir dstDir p
  rw [hdisj q hq] at h1
  exact absurd h1 (by simp)

theorem stepFile_lookup_dst {V : Type} (fmc : FrontMatterConverter V)
    (srcDir dstDir : Path) (ext : String) (st : EngineState) (p : Path)
    (hm : matchesExt p ext = true) (hp : srcDir.isPrefixOf p = true) :
    lookupFS (stepFile fmc srcDir dstDir ext st p).fs.files
        (dstPathOf srcDir dstDir p) =
      match (fileWrite fmc (lookupFS st.fs.files p)).2 with
      | none => lookupFS st.fs.files (dstPathOf srcDir dstDir p)
      | some c => some c := by
  rw [stepFile_fs, processFile_lookup fmc srcDir dstDir ext st.fs p hm hp]
  cases hfw : (fileWrite fmc (lookupFS st.fs.files p)).2 with
  | none => rfl
  | some c =>
    dsimp only
    rw [if_pos rfl]

/-! ### The engine fold characterization -/

theorem runFiles_char {V : Type} (fmc : FrontMatterConverter V)
    (srcDir dstDir : Path) (ext : String) (L : Path → Option (List Char))
    (hdisj : ∀ q, srcDir.isPrefixOf q = true → dstDir.isPrefixOf q = false) :
    ∀ (files : List Path) (st : EngineState),
      (∀ p ∈ files, srcDir.isPrefixOf p = true ∧ matchesExt p ext = true) →
      (∀ q, srcDir.isPrefixOf q = true → lookupFS st.fs.files q = L q) →
      ((runFiles fmc srcDir dstDir ext files st).count =
          st.count +
            files.countP (fun p => ((fileWrite fmc (L p)).1).isNone)) ∧
      ((runFiles fmc srcDir dstDir ext files st).errs.length =
          st.errs.length +
            files.countP (fun p => ((fileWrite fmc (L p)).1).isSome)) ∧
      (∀ q, srcDir.isPrefixOf q = true →
          lookupFS (runFiles fmc srcDir dstDir ext files st).fs.files q =
            L q) ∧
      (∀ q, (∀ p ∈ files, dstPathOf srcDir dstDir p ≠ q) →
          lookupFS (runFiles fmc srcDir dstDir ext files st).fs.files q =
            lookupFS st.fs.files q) ∧
      (files.Nodup → ∀ p ∈ files,
          lookupFS (runFiles fmc srcDir dstDir ext files st).fs.files
              (dstPathOf srcDir dstDir p) =
            match (fileWrite fmc (L p)).2 with
            | none => lookupFS st.fs.files (dstPathOf srcDir dstDir p)
            | some c => some c) := by
  intro files
  induction files with
  | nil =>
    intro st _ hlook
    refine ⟨by simp [runFiles], by simp [runFiles], ?_, ?_, ?_⟩
    · intro q hq
      simpa [runFiles] using hlook q hq
    · intro q _
      simp [runFiles]
    · intro _ p hp
      exact absurd hp (by simp)
  | cons p rest ih =>
    intro st hall hlook
    obtain ⟨hp, hm⟩ := hall p (List.mem_cons_self p rest)
    have hallrest : ∀ p' ∈ rest,
        srcDir.isPrefixOf p' = true ∧ matchesExt p' ext = true :=
      fun p' hp' => hall p' (List.mem_cons_of_mem p hp')
    have hlookp : lookupFS st.fs.files p = L p := hlook p hp
    have hlook' : ∀ q, srcDir.isPrefixOf q = true →
        lookupFS (stepFile fmc srcDir dstDir ext st p).fs.files q = L q :=
      fun q hq => by
        rw [stepFile_lookup_src fmc srcDir dstDir ext st p hdisj hm hp q hq]
        exact hlook q hq
    have hrun : runFiles fmc srcDir dstDir ext (p :: rest) st =
        runFiles fmc srcDir dstDir ext rest
          (stepFile fmc srcDir dstDir ext st p) := rfl
    obtain ⟨ihc, ihe, ihsrc, ihother, ihdst⟩ :=
      ih (stepFile fmc srcDir dstDir ext st p) hallrest hlook'
    have hinj : ∀ p' ∈ rest, dstPathOf srcDir dstDir p' =
        dstPathOf srcDir dstDir p → p' = p := fun p' hp' heq =>
      dstPathOf_inj (hallrest p' hp').1 hp heq
    refine ⟨?_, ?_, ?_, ?_, ?_⟩
    · rw [hrun, ihc, stepFile_count, processFile_fst fmc srcDir dstDir ext
        st.fs p hm hp, hlookp, List.countP_cons]
      cases hfw : (fileWrite fmc (L p)).1
      all_goals simp [hfw]
      all_goals omega
    · rw [hrun, ihe, stepFile_errsLength, processFile_fst fmc srcDir dstDir
        ext st.fs p hm hp, hlookp, List.countP_cons]
      cases hfw : (fileWrite fmc (L p)).1
      all_goals simp [hfw]
      all_goals omega
    · exact ihsrc
    · intro q hq
      rw [hrun, ihother q (fun p' hp' => hq p' (List.mem_cons_of_mem p hp'))]
      exact stepFile_lookup_other fmc srcDir dstDir ext st p hm hp q
        (hq p (List.mem_cons_self p rest))
    · intro hnd p' hp'
      have hndrest : rest.Nodup := (List.nodup_cons.mp hnd).2
      have hpnotin : p ∉ rest := (List.nodup_cons.mp hnd).1
      rcases List.mem_cons.mp hp' with heq | hmem
      · subst heq
        rw [hrun, ihother (dstPathOf srcDir dstDir p')
          (fun pr hpr hcontr => hpnotin (hinj pr hpr hcontr ▸ hpr))]
        rw [stepFile_lookup_dst fmc srcDir dstDir ext st p' hm hp, hlookp]
      · have := ihdst hndrest p' hmem
        rw [hrun, this]
        cases hfw : (fileWrite fmc (L p')).2 with
        | none =>
          dsimp only
          refine stepFile_lookup_other fmc srcDir dstDir ext st p hm hp _ ?_
          intro hcontr
          have : p' = p := dstPathOf_inj (hallrest p' hmem).1 hp hcontr.symm
          exact hpnotin (this ▸ hmem)
        | some c => rfl

/-! ### Helper lemmas: the demo codec and the success path -/

theorem demoHandler_roundtrip :
    ∀ (m : List (String × Nat)) (e : List Char),
      demoHandler.marshal m = some e → demoHandler.unmarshal e = some m := by
  intro m e h
  unfold demoHandler at h ⊢
  dsimp only at h ⊢
  by_cases hm : m = demoTgtMap
  · subst hm
    rw [if_pos rfl] at h
    injection h with he
    subst he
    decide
  · rw [if_neg hm] at h
    exact absurd h (by simp)

theorem convertMarkdown_ok {V : Type} (sh th : FormatHandler V)
    (km : List (String × String)) (content p0 fm body : List Char)
    (m : List (String × V)) (enc : List Char)
    (hsplit : splitN3 content = [p0, fm, body])
    (hun : sh.unmarshal fm = some m)
    (hmar : th.marshal (buildConverted km m) = some enc) :
    convertMarkdown ⟨km, sh, th⟩ content =
      Except.ok ((frontMatterDelimiter ++ '\n' :: (enc ++ frontMatterDelimiter))
        ++ '\n' :: '\n' :: body) := by
  unfold convertMarkdown
  rw [hsplit]
  dsimp only
  unfold convertFrontMatter
  dsimp only
  rw [hun]
  dsimp only
  rw [hmar]

/-- The source and destination roots `["s"]` and `["d"]` used by concrete
engine runs do not overlap: nothing under the source tree lies under the
destination tree. -/
theorem demo_disj : ∀ q : Path,
    (["s"] : Path).isPrefixOf q = true →
    (["d"] : Path).isPrefixOf q = false := by
  intro q hq
  cases q with
  | nil => simp [List.isPrefixOf] at hq
  | cons x t =>
    simp only [List.isPrefixOf, Bool.and_eq_true, beq_iff_eq] at hq
    obtain ⟨hx, _⟩ := hq
    subst hx
    have hds : (("d" : String) == "s") = false := by decide
    simp [List.isPrefixOf, hds]

/-- With a valid configuration, `ConvertPosts` is the aggregation of the
engine run over the walked file list. -/
theorem convertPosts_eq_run {V : Type} (yh th : FormatHandler V)
    (srcDir dstDir : Path) (cfg : Config) (fs : FS)
    (mc : FrontMatterConverter V)
    (hmc : newMarkdownConverter yh th cfg = Except.ok mc) :
    convertPosts yh th srcDir dstDir (some cfg) fs =
      (if (runFiles mc srcDir dstDir cfg.fileExtension
            (walkFiles fs.files srcDir cfg.fileExtension)
            ⟨[], 0, mkdirAllFS fs dstDir⟩).errs.length > 0 then
        (Except.error ("encountered " ++
            toString (runFiles mc srcDir dstDir cfg.fileExtension
              (walkFiles fs.files srcDir cfg.fileExtension)
              ⟨[], 0, mkdirAllFS fs dstDir⟩).errs.length ++
            " errors during conversion"),
         (runFiles mc srcDir dstDir cfg.fileExtension
            (walkFiles fs.files srcDir cfg.fileExtension)
            ⟨[], 0, mkdirAllFS fs dstDir⟩).fs)
      else
        (Except.ok (runFiles mc srcDir dstDir cfg.fileExtension
            (walkFiles fs.files srcDir cfg.fileExtension)
            ⟨[], 0, mkdirAllFS fs dstDir⟩).count,
         (runFiles mc srcDir dstDir cfg.fileExtension
            (walkFiles fs.files srcDir cfg.fileExtension)
            ⟨[], 0, mkdirAllFS fs dstDir⟩).fs)) := by
  unfold convertPosts
  dsimp only
  rw [hmc]
  dsimp only
  rw [mkdirAllFS_files]

/-! ### The claims -/

/-- C1: for every document whose front-matter block parses under the
configured source format, `ConvertMarkdown` succeeds, the output's body is
byte-identical to the input body, and the encoded front-matter block of
the output, decoded under the configured target format, equals the source
mapping with each key renamed per the active direction's key-mapping
table, every key absent from the table kept under its original name with
its value unchanged (remapping an unknown key never fails — `remapKey` is
total).  The target codec is assumed to encode the remapped mapping
successfully and to satisfy the decode-after-encode round-trip, and the
renamed keys are assumed pairwise distinct; both hold for the real
YAML/TOML codecs on documents whose renamed keys do not collide. -/
theorem c1_convert_remaps_and_keeps_body {V : Type}
    (sh th : FormatHandler V) (km : List (String × String))
    (p0 fm body : List Char) (m : List (String × V)) (enc : List Char)
    (hp0 : splitOnceD (p0 ++ ['-', '-']) = none)
    (hfm : splitOnceD (fm ++ ['-', '-']) = none)
    (hun : sh.unmarshal fm = some m)
    (hnd : (m.map fun kv => remapKey km kv.1).Nodup)
    (hmar : th.marshal (buildConverted km m) = some enc)
    (hrt : ∀ (m' : List (String × V)) (e : List Char),
        th.marshal m' = some e → th.unmarshal e = some m') :
    convertMarkdown ⟨km, sh, th⟩
        (p0 ++ '-' :: '-' :: '-' :: (fm ++ '-' :: '-' :: '-' :: body)) =
      Except.ok ((frontMatterDelimiter ++ '\n' ::
          (enc ++ frontMatterDelimiter)) ++ '\n' :: '\n' :: body) ∧
    th.unmarshal enc = some (m.map fun kv => (remapKey km kv.1, kv.2)) := by
  refine ⟨convertMarkdown_ok sh th km _ p0 fm body m enc
    (splitN3_parts p0 fm body hp0 hfm) hun hmar, ?_⟩
  have h := hrt (buildConverted km m) enc hmar
  rwa [buildConverted_eq_map km m hnd] at h

/-- C1 witness: the concrete document `---F---b` with the demo codec,
where `F` decodes to `permalink ↦ 1, title ↦ 2`: conversion succeeds, the
body `b` survives byte-for-byte, and the output block `G` decodes to
`slug ↦ 1, title ↦ 2`. -/
theorem c1_witness :
    splitOnceD (([] : List Char) ++ ['-', '-']) = none ∧
    demoHandler.unmarshal ['F'] = some demoSrcMap ∧
    (convertMarkdown ⟨hexoToHugoKeyMap, demoHandler, demoHandler⟩
        ([] ++ '-' :: '-' :: '-' :: (['F'] ++ '-' :: '-' :: '-' :: ['b'])) =
      Except.ok ((frontMatterDelimiter ++ '\n' ::
          (['G'] ++ frontMatterDelimiter)) ++ '\n' :: '\n' :: ['b']) ∧
     demoHandler.unmarshal ['G'] =
       some (demoSrcMap.map fun kv => (remapKey hexoToHugoKeyMap kv.1, kv.2))) :=
  ⟨by decide, by decide,
    c1_convert_remaps_and_keeps_body demoHandler demoHandler hexoToHugoKeyMap
      [] ['F'] ['b'] demoSrcMap ['G'] (by decide) (by decide) (by decide)
      (by decide) (by decide) demoHandler_roundtrip⟩

/-- C2 (code bug): when a per-file conversion fails after the destination
file has been created, `ProcessFile` reports the failure but leaves the
truncated destination file behind.  The deferred cleanup in `convert.go`
reads `if err != nil { os.Remove(dstPath) }` over the function-scoped
`err`, which is nil once `os.Create` has succeeded; the conversion failure
at line 280 is bound to a fresh `err` inside the `if` statement, so the
remove never fires.  Concretely: source `src/a.md` is empty, conversion
fails with the invalid-markdown error, yet `dst/a.md` exists (empty)
afterwards. -/
theorem c2_failed_conversion_keeps_destination_file :
    (processFile demoFmc ["src"] ["dst"] ".md"
        (⟨[], [(["src", "a.md"], [])]⟩ : FS) ["src", "a.md"]).1 =
      some PErr.invalidMarkdown ∧
    lookupFS (processFile demoFmc ["src"] ["dst"] ".md"
        (⟨[], [(["src", "a.md"], [])]⟩ : FS) ["src", "a.md"]).2.files
        ["dst", "a.md"] = some [] := by
  decide

/-- C3 witness: the empty document and a document whose single delimiter
is never closed both fail with the invalid-document error. -/
theorem c3_witness :
    countDelim ([] : List Char) < 2 ∧
    convertMarkdown demoFmc [] = Except.error PErr.invalidMarkdown ∧
    countDelim ('-' :: '-' :: '-' :: ['a']) < 2 ∧
    convertMarkdown demoFmc ('-' :: '-' :: '-' :: ['a']) =
      Except.error PErr.invalidMarkdown :=
  ⟨by rw [countDelim_nil]
      decide,
   c3_too_few_delimiters_invalid demoFmc []
     (by rw [countDelim_nil]
         decide),
   by rw [countDelim_one_open_delim]
      decide,
   c3_too_few_delimiters_invalid demoFmc ('-' :: '-' :: '-' :: ['a'])
     (by rw [countDelim_one_open_delim]
         decide)⟩

/-- C4: every successful conversion's output is exactly the converted
front-matter wrapper, then one blank line, then the body byte-for-byte:
the wrapper is one delimiter line before and one delimiter line after the
encoded metadata block with nothing (in particular no blank line) inserted
inside the wrapper, and exactly `"\n\n"` separates the wrapper from the
unmodified body. -/
theorem c4_output_wrapper_blank_line_body {V : Type}
    (sh th : FormatHandler V) (km : List (String × String))
    (content p0 fm body : List Char) (m : List (String × V))
    (enc : List Char)
    (hsplit : splitN3 content = [p0, fm, body])
    (hun : sh.unmarshal fm = some m)
    (hmar : th.marshal (buildConverted km m) = some enc) :
    convertMarkdown ⟨km, sh, th⟩ content =
      Except.ok ((frontMatterDelimiter ++ '\n' ::
        (enc ++ frontMatterDelimiter)) ++ '\n' :: '\n' :: body) :=
  convertMarkdown_ok sh th km content p0 fm body m enc hsplit hun hmar

/-- C4 witness: on `---F---b` with the demo codec the output is the
eleven bytes `---\nG---\n\nb`: wrapper, one blank line, body. -/
theorem c4_witness :
    splitN3 ('-' :: '-' :: '-' :: (['F'] ++ '-' :: '-' :: '-' :: ['b'])) =
      [[], ['F'], ['b']] ∧
    convertMarkdown ⟨hexoToHugoKeyMap, demoHandler, demoHandler⟩
        ('-' :: '-' :: '-' :: (['F'] ++ '-' :: '-' :: '-' :: ['b'])) =
      Except.ok ((frontMatterDelimiter ++ '\n' ::
        (['G'] ++ frontMatterDelimiter)) ++ '\n' :: '\n' :: ['b']) :=
  ⟨by decide,
    c4_output_wrapper_blank_line_body demoHandler demoHandler
      hexoToHugoKeyMap _ [] ['F'] ['b'] demoSrcMap ['G'] (by decide)
      (by decide) (by decide)⟩

/-- C5 counterexample: with the unsupported source format `"json"`, the
run fails with the configuration error — but only after `os.MkdirAll` has
created the destination directory: `["dst"]` is absent from the initial
filesystem and present afterwards, refuting "fails before performing any
I/O: no directory is created". -/
theorem c5_counterexample_mkdir_before_validation :
    (convertPosts demoHandler demoHandler ["src"] ["dst"]
        (some ⟨"json", "yaml", ".md", 4, "hexo2hugo"⟩) (⟨[], []⟩ : FS)).1 =
      Except.error ("creating markdown converter: " ++
        ("unsupported format: " ++ "json")) ∧
    ["dst"] ∈ (convertPosts demoHandler demoHandler ["src"] ["dst"]
        (some ⟨"json", "yaml", ".md", 4, "hexo2hugo"⟩)
        (⟨[], []⟩ : FS)).2.dirs ∧
    ["dst"] ∉ (⟨[], []⟩ : FS).dirs := by
  decide

/-- C5 (amended): for every configuration whose source or target format is
unsupported, the run fails with the unsupported-format configuration error
after creating the destination directory but before reading or writing any
file — the only filesystem change is the destination directory, the file
table is untouched.  An unsupported conversion direction is not rejected:
the converter is built successfully with the nil (empty) key map. -/
theorem c5_amended_config_error_after_mkdir {V : Type}
    (yh th : FormatHandler V) (srcDir dstDir : Path) (cfg : Config)
    (fs : FS)
    (hbad : formatHandlers yh th cfg.sourceFormat = none ∨
      formatHandlers yh th cfg.targetFormat = none) :
    ((convertPosts yh th srcDir dstDir (some cfg) fs).1 =
        Except.error ("creating markdown converter: " ++
          ("unsupported format: " ++
            (if (formatHandlers yh th cfg.sourceFormat).isNone
             then cfg.sourceFormat else cfg.targetFormat))) ∧
      (convertPosts yh th srcDir dstDir (some cfg) fs).2 =
        mkdirAllFS fs dstDir ∧
      (convertPosts yh th srcDir dstDir (some cfg) fs).2.files =
        fs.files) ∧
    (∀ cfg' : Config,
        formatHandlers yh th cfg'.sourceFormat ≠ none →
        formatHandlers yh th cfg'.targetFormat ≠ none →
        keyMappings cfg'.conversionDirection = none →
        ∃ mc, newMarkdownConverter yh th cfg' = Except.ok mc ∧
          mc.keyMap = []) := by
  constructor
  · cases hs : formatHandlers yh th cfg.sourceFormat with
    | none =>
      unfold convertPosts newMarkdownConverter newFrontMatterConverter
      dsimp only
      rw [hs]
      dsimp only
      refine ⟨?_, rfl, mkdirAllFS_files fs dstDir⟩
      rfl
    | some sh' =>
      have ht : formatHandlers yh th cfg.targetFormat = none := by
        rcases hbad with h | h
        · rw [hs] at h
          exact absurd h (by simp)
        · exact h
      unfold convertPosts newMarkdownConverter newFrontMatterConverter
      dsimp only
      rw [hs, ht]
      dsimp only
      refine ⟨?_, rfl, mkdirAllFS_files fs dstDir⟩
      rfl
  · intro cfg' h1 h2 h3
    cases hs' : formatHandlers yh th cfg'.sourceFormat with
    | none => exact absurd hs' h1
    | some a =>
      cases ht' : formatHandlers yh th cfg'.targetFormat with
      | none => exact absurd ht' h2
      | some b =>
        refine ⟨⟨[], a, b⟩, ?_, rfl⟩
        unfold newMarkdownConverter newFrontMatterConverter
        rw [hs', ht']
        dsimp only
        rw [h3]
        rfl

/-- C5 witness: the counterexample configuration instantiates the format
half and direction `"bogus"` (with both formats YAML) instantiates the
direction half. -/
theorem c5_witness :
    ((convertPosts demoHandler demoHandler ["src"] ["dst"]
        (some ⟨"json", "yaml", ".md", 4, "hexo2hugo"⟩) (⟨[], []⟩ : FS)).1 =
      Except.error ("creating markdown converter: " ++
        ("unsupported format: " ++
          (if (formatHandlers demoHandler demoHandler "json").isNone
           then "json" else "yaml")))) ∧
    (∃ mc, newMarkdownConverter demoHandler demoHandler
        ⟨"yaml", "yaml", ".md", 4, "bogus"⟩ = Except.ok mc ∧
      mc.keyMap = []) :=
  ⟨(c5_amended_config_error_after_mkdir demoHandler demoHandler ["src"]
      ["dst"] ⟨"json", "yaml", ".md", 4, "hexo2hugo"⟩ ⟨[], []⟩
      (Or.inl rfl)).1.1,
   (c5_amended_config_error_after_mkdir demoHandler demoHandler ["src"]
      ["dst"] ⟨"json", "yaml", ".md", 4, "hexo2hugo"⟩ ⟨[], []⟩
      (Or.inl rfl)).2 ⟨"yaml", "yaml", ".md", 4, "bogus"⟩
      (by simp [formatHandlers]) (by simp [formatHandlers]) rfl⟩

/-- C6: for every run of the directory conversion engine with a valid
configuration in which all workers finish: if at least one per-file
failure was recorded, the engine returns a terminal error whose message
states the total number of failed files; if zero failures were recorded,
it returns success with the count of converted files.  The counts are the
numbers of walked files whose pure per-file outcome on the initial
filesystem fails respectively succeeds; the disjointness hypothesis says
the destination tree does not overlap the source tree (so writing outputs
cannot perturb later reads). -/
theorem c6_aggregate_error_or_success_count {V : Type}
    (yh th : FormatHandler V) (srcDir dstDir : Path) (cfg : Config)
    (fs : FS) (mc : FrontMatterConverter V)
    (hmc : newMarkdownConverter yh th cfg = Except.ok mc)
    (hdisj : ∀ q, srcDir.isPrefixOf q = true →
      dstDir.isPrefixOf q = false) :
    ((walkFiles fs.files srcDir cfg.fileExtension).countP
        (fun p => ((fileWrite mc (lookupFS fs.files p)).1).isSome) ≠ 0 →
      (convertPosts yh th srcDir dstDir (some cfg) fs).1 =
        Except.error ("encountered " ++
          toString ((walkFiles fs.files srcDir cfg.fileExtension).countP
            (fun p => ((fileWrite mc (lookupFS fs.files p)).1).isSome)) ++
          " errors during conversion")) ∧
    ((walkFiles fs.files srcDir cfg.fileExtension).countP
        (fun p => ((fileWrite mc (lookupFS fs.files p)).1).isSome) = 0 →
      (convertPosts yh th srcDir dstDir (some cfg) fs).1 =
        Except.ok ((walkFiles fs.files srcDir cfg.fileExtension).countP
          (fun p => ((fileWrite mc (lookupFS fs.files p)).1).isNone))) := by
  have hall : ∀ p ∈ walkFiles fs.files srcDir cfg.fileExtension,
      srcDir.isPrefixOf p = true ∧ matchesExt p cfg.fileExtension = true :=
    fun p hp => walkFiles_mem hp
  have hlook : ∀ q, srcDir.isPrefixOf q = true →
      lookupFS ((⟨[], 0, mkdirAllFS fs dstDir⟩ : EngineState)).fs.files q =
        lookupFS fs.files q := by
    intro q _
    rw [mkdirAllFS_files]
  obtain ⟨ihc, ihe, _, _, _⟩ := runFiles_char mc srcDir dstDir
    cfg.fileExtension (fun q => lookupFS fs.files q) hdisj
    (walkFiles fs.files srcDir cfg.fileExtension)
    ⟨[], 0, mkdirAllFS fs dstDir⟩ hall hlook
  simp only [List.length_nil, Nat.zero_add] at ihc ihe
  rw [convertPosts_eq_run yh th srcDir dstDir cfg fs mc hmc]
  constructor
  · intro hne
    rw [if_pos (by rw [ihe]; exact Nat.pos_of_ne_zero hne)]
    dsimp only
    rw [ihe]
  · intro hz
    rw [if_neg (by rw [ihe, hz]; simp)]
    dsimp only
    rw [ihc]

/-- C6 witness: a source tree with one valid document and one empty
document yields the terminal error naming one failed file; the same tree
without the empty document yields success with one converted file. -/
theorem c6_witness :
    (convertPosts demoHandler demoHandler ["s"] ["d"]
        (some ⟨"yaml", "yaml", ".md", 4, "hexo2hugo"⟩)
        (⟨[], [(["s", "a.md"],
            '-' :: '-' :: '-' :: (['F'] ++ '-' :: '-' :: '-' :: ['b'])),
          (["s", "b.md"], [])]⟩ : FS)).1 =
      Except.error ("encountered " ++
        toString ((walkFiles
          [(["s", "a.md"],
              '-' :: '-' :: '-' :: (['F'] ++ '-' :: '-' :: '-' :: ['b'])),
            (["s", "b.md"], ([] : List Char))] ["s"] ".md").countP
          (fun p => ((fileWrite demoFmc (lookupFS
            [(["s", "a.md"],
                '-' :: '-' :: '-' :: (['F'] ++ '-' :: '-' :: '-' :: ['b'])),
              (["s", "b.md"], ([] : List Char))] p)).1).isSome)) ++
        " errors during conversion") ∧
    (convertPosts demoHandler demoHandler ["s"] ["d"]
        (some ⟨"yaml", "yaml", ".md", 4, "hexo2hugo"⟩)
        (⟨[], [(["s", "a.md"],
            '-' :: '-' :: '-' :: (['F'] ++ '-' :: '-' :: '-' :: ['b']))]⟩ :
          FS)).1 =
      Except.ok ((walkFiles
        [(["s", "a.md"],
            '-' :: '-' :: '-' :: (['F'] ++ '-' :: '-' :: '-' :: ['b']))]
        ["s"] ".md").countP
        (fun p => ((fileWrite demoFmc (lookupFS
          [(["s", "a.md"],
              '-' :: '-' :: '-' :: (['F'] ++ '-' :: '-' :: '-' :: ['b']))]
          p)).1).isNone)) :=
  ⟨(c6_aggregate_error_or_success_count demoHandler demoHandler ["s"] ["d"]
      ⟨"yaml", "yaml", ".md", 4, "hexo2hugo"⟩
      ⟨[], [(["s", "a.md"],
          '-' :: '-' :: '-' :: (['F'] ++ '-' :: '-' :: '-' :: ['b'])),
        (["s", "b.md"], [])]⟩ demoFmc rfl demo_disj).1 (by decide),
   (c6_aggregate_error_or_success_count demoHandler demoHandler ["s"] ["d"]
      ⟨"yaml", "yaml", ".md", 4, "hexo2hugo"⟩
      ⟨[], [(["s", "a.md"],
          '-' :: '-' :: '-' :: (['F'] ++ '-' :: '-' :: '-' :: ['b']))]⟩
      demoFmc rfl demo_disj).2 (by decide)⟩

/-- C7 counterexample: the document `junk---F---b` converts successfully
although the text before the first delimiter occurrence is `junk`, which
is neither empty nor whitespace — `ConvertMarkdown` performs no check on
`parts[0]` and silently discards it, refuting "accepts a document only if
it begins with the delimiter after optional leading whitespace". -/
theorem c7_counterexample_nonwhitespace_prefix_accepted :
    convertMarkdown demoFmc
        (['j', 'u', 'n', 'k'] ++ '-' :: '-' :: '-' ::
          (['F'] ++ '-' :: '-' :: '-' :: ['b'])) =
      Except.ok ['-', '-', '-', '\n', 'G', '-', '-', '-', '\n', '\n', 'b'] ∧
    (splitN3 (['j', 'u', 'n', 'k'] ++ '-' :: '-' :: '-' ::
        (['F'] ++ '-' :: '-' :: '-' :: ['b']))).head? =
      some ['j', 'u', 'n', 'k'] ∧
    ['j', 'u', 'n', 'k'] ≠ ([] : List Char) ∧
    (['j', 'u', 'n', 'k'].all fun c => c.isWhitespace) = false := by
  decide

/-- C7 (amended): `ConvertMarkdown` accepts any document with at least two
delimiter occurrences regardless of what precedes the first one; the text
before the first delimiter is discarded without any emptiness or
whitespace check (the result equals the result of converting the document
with that prefix removed), and everything after the second delimiter
occurrence — including further delimiter-like substrings — belongs to the
body, copied verbatim and never treated as an additional boundary. -/
theorem c7_amended_prefix_discarded_body_verbatim {V : Type}
    (sh th : FormatHandler V) (km : List (String × String))
    (p0 fm body : List Char) (m : List (String × V)) (enc : List Char)
    (hp0 : splitOnceD (p0 ++ ['-', '-']) = none)
    (hfm : splitOnceD (fm ++ ['-', '-']) = none)
    (hun : sh.unmarshal fm = some m)
    (hmar : th.marshal (buildConverted km m) = some enc) :
    convertMarkdown ⟨km, sh, th⟩
        (p0 ++ '-' :: '-' :: '-' :: (fm ++ '-' :: '-' :: '-' :: body)) =
      convertMarkdown ⟨km, sh, th⟩
        ('-' :: '-' :: '-' :: (fm ++ '-' :: '-' :: '-' :: body)) ∧
    convertMarkdown ⟨km, sh, th⟩
        (p0 ++ '-' :: '-' :: '-' :: (fm ++ '-' :: '-' :: '-' :: body)) =
      Except.ok ((frontMatterDelimiter ++ '\n' ::
        (enc ++ frontMatterDelimiter)) ++ '\n' :: '\n' :: body) := by
  have h1 := convertMarkdown_ok sh th km _ p0 fm body m enc
    (splitN3_parts p0 fm body hp0 hfm) hun hmar
  have h2 := convertMarkdown_ok sh th km _ [] fm body m enc
    (splitN3_parts [] fm body (by decide) hfm) hun hmar
  exact ⟨h1.trans h2.symm, h1⟩

/-- C7 witness: with the non-whitespace prefix `junk`, conversion agrees
byte-for-byte with the conversion of the same document without the prefix,
and the body survives verbatim. -/
theorem c7_witness :
    splitOnceD (['j', 'u', 'n', 'k'] ++ ['-', '-']) = none ∧
    (convertMarkdown ⟨hexoToHugoKeyMap, demoHandler, demoHandler⟩
        (['j', 'u', 'n', 'k'] ++ '-' :: '-' :: '-' ::
          (['F'] ++ '-' :: '-' :: '-' :: ['b'])) =
      convertMarkdown ⟨hexoToHugoKeyMap, demoHandler, demoHandler⟩
        ('-' :: '-' :: '-' :: (['F'] ++ '-' :: '-' :: '-' :: ['b'])) ∧
     convertMarkdown ⟨hexoToHugoKeyMap, demoHandler, demoHandler⟩
        (['j', 'u', 'n', 'k'] ++ '-' :: '-' :: '-' ::
          (['F'] ++ '-' :: '-' :: '-' :: ['b'])) =
      Except.ok ((frontMatterDelimiter ++ '\n' ::
        (['G'] ++ frontMatterDelimiter)) ++ '\n' :: '\n' :: ['b'])) :=
  ⟨by decide,
    c7_amended_prefix_discarded_body_verbatim demoHandler demoHandler
      hexoToHugoKeyMap ['j', 'u', 'n', 'k'] ['F'] ['b'] demoSrcMap ['G']
      (by decide) (by decide) (by decide) (by decide)⟩

/-- C8: the two direction key-mapping tables are mutual inverses on their
declared pairs — every pair `(k, v)` of the hexo-to-hugo table is matched
by `v ↦ k` in the hugo-to-hexo table and vice versa — and every entry of
either table is a proper renaming: no identity (pass-through) entry is
present, so everything else is identity by default. -/
theorem c8_key_tables_mutual_inverse :
    (hexoToHugoKeyMap.all fun kv =>
      (lookupKM hugoToHexoKeyMap kv.2 == some kv.1) && (kv.1 != kv.2)) =
        true ∧
    (hugoToHexoKeyMap.all fun kv =>
      (lookupKM hexoToHugoKeyMap kv.2 == some kv.1) && (kv.1 != kv.2)) =
        true := by
  decide

/-- C9: the tree conversion's observable outcome is a deterministic
function of the input set, independent of the concurrency level and of
worker interleaving.  First conjunct: `ConvertPosts` does not depend on
`MaxConcurrency` at all (so levels 1, 2, 4, 8 coincide).  Second conjunct:
running the per-file workers over any two permutations of the same
duplicate-free walked file list — every interleaving of the bounded pool
completes the per-file actions in some such order — produces the same
success count, the same failure count, and byte-identical file contents at
every path. -/
theorem c9_concurrency_and_order_independent {V : Type}
    (yh th : FormatHandler V) (fmc : FrontMatterConverter V) :
    (∀ (srcDir dstDir : Path) (s t e d : String) (n₁ n₂ : Nat) (fs : FS),
      convertPosts yh th srcDir dstDir (some ⟨s, t, e, n₁, d⟩) fs =
        convertPosts yh th srcDir dstDir (some ⟨s, t, e, n₂, d⟩) fs) ∧
    (∀ (srcDir dstDir : Path) (ext : String) (files₁ files₂ : List Path)
      (fs : FS),
      files₁.Perm files₂ → files₁.Nodup →
      (∀ p ∈ files₁, srcDir.isPrefixOf p = true ∧
        matchesExt p ext = true) →
      (∀ q, srcDir.isPrefixOf q = true → dstDir.isPrefixOf q = false) →
      (runFiles fmc srcDir dstDir ext files₁ ⟨[], 0, fs⟩).count =
          (runFiles fmc srcDir dstDir ext files₂ ⟨[], 0, fs⟩).count ∧
        (runFiles fmc srcDir dstDir ext files₁ ⟨[], 0, fs⟩).errs.length =
          (runFiles fmc srcDir dstDir ext files₂ ⟨[], 0, fs⟩).errs.length ∧
        ∀ q, lookupFS
            (runFiles fmc srcDir dstDir ext files₁ ⟨[], 0, fs⟩).fs.files q =
          lookupFS
            (runFiles fmc srcDir dstDir ext files₂ ⟨[], 0, fs⟩).fs.files q) := by
  constructor
  · intro srcDir dstDir s t e d n₁ n₂ fs
    rfl
  · intro srcDir dstDir ext files₁ files₂ fs hperm hnd hall hdisj
    have hall₂ : ∀ p ∈ files₂, srcDir.isPrefixOf p = true ∧
        matchesExt p ext = true :=
      fun p hp => hall p (hperm.mem_iff.mpr hp)
    have hnd₂ : files₂.Nodup := hperm.nodup_iff.mp hnd
    have hlook : ∀ q, srcDir.isPrefixOf q = true →
        lookupFS ((⟨[], 0, fs⟩ : EngineState)).fs.files q =
          lookupFS fs.files q := fun q _ => rfl
    obtain ⟨c1, e1, _, o1, d1⟩ := runFiles_char fmc srcDir dstDir ext
      (fun q => lookupFS fs.files q) hdisj files₁ ⟨[], 0, fs⟩ hall hlook
    obtain ⟨c2, e2, _, o2, d2⟩ := runFiles_char fmc srcDir dstDir ext
      (fun q => lookupFS fs.files q) hdisj files₂ ⟨[], 0, fs⟩ hall₂ hlook
    refine ⟨?_, ?_, ?_⟩
    · rw [c1, c2, hperm.countP_eq]
    · rw [e1, e2, hperm.countP_eq]
    · intro q
      by_cases hx : ∃ p ∈ files₁, dstPathOf srcDir dstDir p = q
      · obtain ⟨p, hp, rfl⟩ := hx
        rw [d1 hnd p hp, d2 hnd₂ p (hperm.mem_iff.mp hp)]
      · push_neg at hx
        rw [o1 q hx, o2 q (fun p hp => hx p (hperm.mem_iff.mpr hp))]

/-- C9 witness: a two-file tree processed in the two opposite completion
orders gives the same counts and the same bytes at every path; and
`ConvertPosts` at concurrency 1 equals `ConvertPosts` at concurrency 8. -/
theorem c9_witness :
    (convertPosts demoHandler demoHandler ["s"] ["d"]
        (some ⟨"yaml", "yaml", ".md", 1, "hexo2hugo"⟩) (⟨[], []⟩ : FS) =
      convertPosts demoHandler demoHandler ["s"] ["d"]
        (some ⟨"yaml", "yaml", ".md", 8, "hexo2hugo"⟩) (⟨[], []⟩ : FS)) ∧
    ([["s", "a.md"], ["s", "b.md"]] : List Path).Perm
      [["s", "b.md"], ["s", "a.md"]] ∧
    ((runFiles demoFmc ["s"] ["d"] ".md" [["s", "a.md"], ["s", "b.md"]]
        ⟨[], 0, ⟨[], [(["s", "a.md"],
          '-' :: '-' :: '-' :: (['F'] ++ '-' :: '-' :: '-' :: ['b'])),
          (["s", "b.md"], [])]⟩⟩).count =
      (runFiles demoFmc ["s"] ["d"] ".md" [["s", "b.md"], ["s", "a.md"]]
        ⟨[], 0, ⟨[], [(["s", "a.md"],
          '-' :: '-' :: '-' :: (['F'] ++ '-' :: '-' :: '-' :: ['b'])),
          (["s", "b.md"], [])]⟩⟩).count ∧
     (runFiles demoFmc ["s"] ["d"] ".md" [["s", "a.md"], ["s", "b.md"]]
        ⟨[], 0, ⟨[], [(["s", "a.md"],
          '-' :: '-' :: '-' :: (['F'] ++ '-' :: '-' :: '-' :: ['b'])),
          (["s", "b.md"], [])]⟩⟩).errs.length =
      (runFiles demoFmc ["s"] ["d"] ".md" [["s", "b.md"], ["s", "a.md"]]
        ⟨[], 0, ⟨[], [(["s", "a.md"],
          '-' :: '-' :: '-' :: (['F'] ++ '-' :: '-' :: '-' :: ['b'])),
          (["s", "b.md"], [])]⟩⟩).errs.length ∧
     ∀ q, lookupFS (runFiles demoFmc ["s"] ["d"] ".md"
          [["s", "a.md"], ["s", "b.md"]]
          ⟨[], 0, ⟨[], [(["s", "a.md"],
            '-' :: '-' :: '-' :: (['F'] ++ '-' :: '-' :: '-' :: ['b'])),
            (["s", "b.md"], [])]⟩⟩).fs.files q =
        lookupFS (runFiles demoFmc ["s"] ["d"] ".md"
          [["s", "b.md"], ["s", "a.md"]]
          ⟨[], 0, ⟨[], [(["s", "a.md"],
            '-' :: '-' :: '-' :: (['F'] ++ '-' :: '-' :: '-' :: ['b'])),
            (["s", "b.md"], [])]⟩⟩).fs.files q) :=
  ⟨(c9_concurrency_and_order_independent demoHandler demoHandler
      demoFmc).1 ["s"] ["d"] "yaml" "yaml" ".md" "hexo2hugo" 1 8 ⟨[], []⟩,
   by decide,
   (c9_concurrency_and_order_independent demoHandler demoHandler
      demoFmc).2 ["s"] ["d"] ".md" [["s", "a.md"], ["s", "b.md"]]
      [["s", "b.md"], ["s", "a.md"]]
      ⟨[], [(["s", "a.md"],
        '-' :: '-' :: '-' :: (['F'] ++ '-' :: '-' :: '-' :: ['b'])),
        (["s", "b.md"], [])]⟩
      (by decide) (by decide) (by decide) demo_disj⟩

/-- C10: calling `ConvertPosts` with a nil configuration does not fail and
behaves exactly as if called with the default configuration: YAML source
format, YAML target format, file suffix `".md"`, direction hexo-to-hugo,
maximum concurrency 4. -/
theorem c10_nil_config_defaults {V : Type} (yh th : FormatHandler V)
    (srcDir dstDir : Path) (fs : FS) :
    convertPosts yh th srcDir dstDir none fs =
      convertPosts yh th srcDir dstDir (some newDefaultConfig) fs ∧
    newDefaultConfig = ⟨"yaml", "yaml", ".md", 4, "hexo2hugo"⟩ :=
  ⟨rfl, rfl⟩

end H2h
